import Mathlib

/-!
Shallow embedding of the warehouse reconciliation engine
(`backend/app/services/reconcile.py` together with the ORM models of
`backend/app/models.py` and the settings of `backend/app/config.py`).

Timestamps are rationals measured in hours; a calendar date is an integer
day index, so date `d` covers the half-open interval of hours
`[24*d, 24*(d+1))`.  Python dictionaries are modelled as association
lists in insertion order: inserting an existing key overwrites its value
in place, inserting a new key appends.  Unmodelled columns (photo
references, OCR text, confidence scores, lot/customer fields) play no
role in reconciliation.
-/

namespace Recon

/-- A point in time, in hours. -/
abbrev Time := ℚ

/-- Hour at which calendar date `d` begins (dates are day indices). -/
def dayStart (d : Int) : Time := ((24 * d : Int) : ℚ)

/-- The `items` table: only the columns the engine reads. -/
structure Item where
  item_id : String
  sku : String
deriving DecidableEq

/-- The `orders` table (`models.Order`). `item_ids` is a nullable JSON column. -/
structure Order where
  order_id : String
  ship_date : Int
  sku : String
  qty : Nat
  item_ids : Option (List String)
  status : String
deriving DecidableEq

/-- The `allocations` table: one row per item (item_id is the primary key). -/
structure Allocation where
  item_id : String
  bin_id : String
deriving DecidableEq

/-- The `snapshots` table. `bin_id` and `item_ids` are nullable columns. -/
structure Snapshot where
  id : Nat
  ts : Time
  bin_id : Option String
  item_ids : Option (List String)
deriving DecidableEq

/-- The `anomalies` table. -/
structure Anomaly where
  id : Nat
  ts : Time
  type : String
  bin_id : Option String
  item_id : Option String
  order_id : Option String
  severity : String
  detail : String
  status : String
deriving DecidableEq

/-- The database state visible to the reconciliation service. -/
structure DB where
  orders : List Order
  allocations : List Allocation
  snapshots : List Snapshot
  items : List Item
  anomalies : List Anomaly
deriving DecidableEq

/-- The settings the engine reads (`config.Settings`). -/
structure Config where
  staging_bins : List String
  staging_threshold_hours : Int
deriving DecidableEq

/-! ### Python dict model -/

/-- Assignment `d[k] = v` on a Python dict: overwrite in place if the key exists,
append otherwise. -/
def dictInsert {β : Type} (d : List (String × β)) (k : String) (v : β) :
    List (String × β) :=
  if d.any (fun p => p.1 == k) then
    d.map (fun p => if p.1 == k then (k, v) else p)
  else
    d ++ [(k, v)]

/-- Dict lookup (`d.get(k)` / `k in d`). -/
def dictGet? {β : Type} (d : List (String × β)) (k : String) : Option β :=
  (d.find? (fun p => p.1 == k)).map (fun p => p.2)

/-- The `defaultdict(list)` operation `d[k].extend(vs)`. -/
def dictExtend (d : List (String × List String)) (k : String)
    (vs : List String) : List (String × List String) :=
  if d.any (fun p => p.1 == k) then
    d.map (fun p => if p.1 == k then (p.1, p.2 ++ vs) else p)
  else
    d ++ [(k, vs)]

/-- Python truthiness of a nullable string column. -/
def truthyStr : Option String → Bool
  | none => false
  | some s => !(s == "")

/-- Python truthiness of a nullable JSON list column. -/
def truthyList : Option (List String) → Bool
  | none => false
  | some l => !l.isEmpty

/-- The item list of a snapshot (empty when the column is NULL). -/
def itemsOf (s : Snapshot) : List String := s.item_ids.getD []

/-! ### Reads (`_get_*` helpers) -/

/-- Model of `_get_orders_for_date`: orders whose ship_date equals the target date. -/
def get_orders_for_date (db : DB) (d : Int) : List Order :=
  db.orders.filter (fun o => o.ship_date == d)

/-- Model of `_get_latest_allocations`: the dict `{alloc.item_id: alloc.bin_id}`
built over all allocation rows in table order. -/
def get_latest_allocations (db : DB) : List (String × String) :=
  db.allocations.foldl (fun acc a => dictInsert acc a.item_id a.bin_id) []

/-- Model of `_get_last_snapshots_before`: rows with a non-NULL bin whose timestamp
is strictly before the cutoff and maximal among that bin's pre-cutoff
rows (the SQL max-join; ties on the maximum keep every tied row). -/
def get_last_snapshots_before (db : DB) (cutoff : Time) : List Snapshot :=
  db.snapshots.filter (fun s =>
    match s.bin_id with
    | none => false
    | some b =>
        decide (s.ts < cutoff) &&
        db.snapshots.all (fun s2 =>
          !((s2.bin_id == some b) && decide (s2.ts < cutoff)) ||
            decide (s2.ts ≤ s.ts)))

/-- Model of `_index_seen_items`: item_id → bin_id over the kept snapshots; a later
write for the same item overwrites an earlier one. -/
def index_seen_items (snapshots : List Snapshot) : List (String × String) :=
  snapshots.foldl
    (fun seen s =>
      if truthyList s.item_ids && truthyStr s.bin_id then
        (itemsOf s).foldl (fun acc iid => dictInsert acc iid (s.bin_id.getD "")) seen
      else seen)
    []

/-- Model of `_index_bin_items`: bin_id → concatenated item lists of its kept
snapshots. -/
def index_bin_items (snapshots : List Snapshot) : List (String × List String) :=
  snapshots.foldl
    (fun acc s =>
      if truthyList s.item_ids && truthyStr s.bin_id then
        dictExtend acc (s.bin_id.getD "") (itemsOf s)
      else acc)
    []

/-- Model of `_get_items_by_sku`: up to `qty` item ids whose SKU matches, in table
order. -/
def get_items_by_sku (db : DB) (sku : String) (qty : Nat) : List String :=
  ((db.items.filter (fun i => i.sku == sku)).take qty).map (fun i => i.item_id)

/-- The item resolution inline in `_check_unshipped_orders`:
`order.item_ids or self._get_items_by_sku(order.sku, order.qty)` — by
Python truthiness both a NULL and an empty explicit list fall back to the
SKU query. -/
def resolve_order_items (db : DB) (o : Order) : List String :=
  match o.item_ids with
  | some l => if l.isEmpty then get_items_by_sku db o.sku o.qty else l
  | none => get_items_by_sku db o.sku o.qty

/-- Timestamp of the earliest snapshot of the given bin whose item list
contains the given item (the `ORDER BY ts ASC ... first()` query of
`_get_hours_in_bin`). -/
def first_ts? (db : DB) (item_id bin_id : String) : Option Time :=
  ((db.snapshots.filter (fun s =>
      s.bin_id == some bin_id && (itemsOf s).contains item_id)).map
        (fun s => s.ts)).min?

/-- Model of `_get_hours_in_bin`: hours since the earliest snapshot that placed
the item in the bin (0.0 when none exists). -/
def get_hours_in_bin (db : DB) (now : Time) (item_id bin_id : String) : Time :=
  match first_ts? db item_id bin_id with
  | some t => now - t
  | none => 0

/-- Model of `_was_bin_scanned`: some snapshot of the bin is at most 24 hours old. -/
def was_bin_scanned (db : DB) (now : Time) (bin_id : String) : Bool :=
  db.snapshots.any (fun s =>
    s.bin_id == some bin_id && decide (now - 24 ≤ s.ts))

/-! ### Anomaly candidates (the dicts built by the detectors) -/

/-- The payload each detector appends, before persistence. -/
structure AnomalyData where
  type : String
  bin_id : Option String := none
  item_id : Option String := none
  order_id : Option String := none
  severity : String
  detail : String
deriving DecidableEq

/-- Model of `_check_unshipped_orders` (its unused `target_date` argument is
dropped). -/
def check_unshipped_orders (db : DB) (orders : List Order)
    (seen : List (String × String)) : List AnomalyData :=
  orders.flatMap (fun o =>
    if o.status != "shipped" then []
    else
      (resolve_order_items db o).flatMap (fun iid =>
        match dictGet? seen iid with
        | some bin_seen =>
            [{ type := "unshipped", order_id := some o.order_id,
               item_id := some iid, bin_id := some bin_seen,
               severity := "high",
               detail := "Order " ++ o.order_id ++
                 " marked shipped but item " ++ iid ++
                 " still seen at " ++ bin_seen }]
        | none => []))

/-- Model of `_check_misplaced_items`. -/
def check_misplaced_items (allocations seen : List (String × String)) :
    List AnomalyData :=
  allocations.flatMap (fun p =>
    match dictGet? seen p.1 with
    | some actual =>
        if actual != p.2 then
          [{ type := "misplaced", item_id := some p.1,
             bin_id := some actual, severity := "med",
             detail := "Item " ++ p.1 ++ " expected in " ++ p.2 ++
               ", found in " ++ actual }]
        else []
    | none => [])

/-- Model of `_check_orphan_items`. -/
def check_orphan_items (db : DB) (seen : List (String × String)) :
    List AnomalyData :=
  seen.flatMap (fun p =>
    if db.items.any (fun i => i.item_id == p.1) then []
    else
      [{ type := "orphan", item_id := some p.1, bin_id := some p.2,
         severity := "med",
         detail := "Item " ++ p.1 ++ " seen in " ++ p.2 ++
           " but not found in system" }])

/-- Model of `_check_staging_issues` (the numeric interpolation in the detail
string is not reproduced). -/
def check_staging_issues (cfg : Config) (db : DB) (now : Time)
    (bin_items : List (String × List String)) : List AnomalyData :=
  cfg.staging_bins.flatMap (fun b =>
    match dictGet? bin_items b with
    | some items =>
        items.flatMap (fun iid =>
          if (cfg.staging_threshold_hours : ℚ) < get_hours_in_bin db now iid b then
            [{ type := "stale_staging", item_id := some iid,
               bin_id := some b, severity := "high",
               detail := "Item " ++ iid ++ " in staging " ++ b ++
                 " beyond threshold" }]
          else [])
    | none => [])

/-- Model of `_check_missing_items`. -/
def check_missing_items (db : DB) (now : Time)
    (allocations seen : List (String × String)) : List AnomalyData :=
  allocations.flatMap (fun p =>
    match dictGet? seen p.1 with
    | some _ => []
    | none =>
        if was_bin_scanned db now p.2 then
          [{ type := "missing", item_id := some p.1, bin_id := some p.2,
             severity := "med",
             detail := "Item " ++ p.1 ++ " allocated to " ++ p.2 ++
               " but not seen in recent snapshots" }]
        else [])

/-! ### The run -/

/-- All candidates of one run, in the orchestrator's concatenation
order. -/
def generate_anomalies (cfg : Config) (db : DB) (d : Int) (now : Time) :
    List AnomalyData :=
  let orders := get_orders_for_date db d
  let allocations := get_latest_allocations db
  let snapshots := get_last_snapshots_before db (dayStart (d + 1))
  let seen := index_seen_items snapshots
  let bin_items := index_bin_items snapshots
  check_unshipped_orders db orders seen
    ++ check_misplaced_items allocations seen
    ++ check_orphan_items db seen
    ++ check_staging_issues cfg db now bin_items
    ++ check_missing_items db now allocations seen

/-- Membership of a timestamp in date `d`'s deletion/listing window
`[targetDate, targetDate + 1 day)`. -/
def inWindow (d : Int) (ts : Time) : Bool :=
  decide (dayStart d ≤ ts) && decide (ts < dayStart (d + 1))

/-- Fresh primary key for an insert. -/
def nextAnomalyId (l : List Anomaly) : Nat :=
  (l.map (fun a => a.id)).foldr max 0 + 1

/-- Construction `Anomaly(**anomaly_data)` with the column defaults of `models.Anomaly`:
`ts` defaults to the insertion time and `status` to "open". -/
def mkAnomalyRow (now : Time) (id : Nat) (a : AnomalyData) : Anomaly :=
  { id := id, ts := now, type := a.type, bin_id := a.bin_id,
    item_id := a.item_id, order_id := a.order_id,
    severity := a.severity, detail := a.detail, status := "open" }

/-- Model of `_save_anomalies`: the rows added by one run (its `target_date`
argument is unused in the source — rows are stamped with the insertion
time, not the target date). -/
def save_anomalies (db : DB) (now : Time) (datas : List AnomalyData) :
    List Anomaly :=
  datas.enum.map (fun p => mkAnomalyRow now (nextAnomalyId db.anomalies + p.1) p.2)

/-- Model of `run_reconciliation` on the success path: delete the window
`[targetDate, targetDate + 1 day)`, regenerate, insert, commit.  None of
the generators read the anomaly table, so reading them from the pre-run
state is exact.  (The returned summary dict is not modelled.) -/
def run_reconciliation (cfg : Config) (db : DB) (d : Int) (now : Time) : DB :=
  { db with anomalies :=
      db.anomalies.filter (fun a => !inWindow d a.ts)
        ++ save_anomalies db now (generate_anomalies cfg db d now) }

/-- Lexicographic strict order on character lists, the collation SQL
applies to TEXT columns. -/
def charsLt : List Char → List Char → Bool
  | _, [] => false
  | [], _ :: _ => true
  | a :: as, b :: bs => decide (a < b) || (a == b && charsLt as bs)

/-- Strict lexicographic order on strings (SQLite's BINARY collation,
codepoint-wise). -/
def strLt (a b : String) : Bool := charsLt a.toList b.toList

/-- The retrieval ordering of `get_anomalies_for_date`:
`ORDER BY severity DESC, ts DESC` on the severity *string*. -/
def anomOrder (a b : Anomaly) : Prop :=
  strLt b.severity a.severity = true ∨ (a.severity = b.severity ∧ b.ts ≤ a.ts)

instance : DecidableRel anomOrder := fun a b =>
  inferInstanceAs (Decidable (strLt b.severity a.severity = true ∨
    (a.severity = b.severity ∧ b.ts ≤ a.ts)))

/-- Model of `get_anomalies_for_date`: the date window, sorted by severity string
descending then timestamp descending. -/
def get_anomalies_for_date (db : DB) (d : Int) : List Anomaly :=
  (db.anomalies.filter (fun a => inWindow d a.ts)).insertionSort anomOrder

/-! ### Session / transaction model

`run_reconciliation` issues its deletes and inserts on an uncommitted
SQLAlchemy session and commits once, at the end; the `except` handler
rolls the session back.  `Tx` carries the committed anomaly table next to
the session's pending view; the run is the sequence of session-visible
steps in source order, and a failure before step `k` rolls back. -/

structure Tx where
  committed : List Anomaly
  pending : List Anomaly
deriving DecidableEq

/-- The session steps of one run, in source order: the window delete,
the four read/detect phases (which touch no anomaly state), the inserts
of `_save_anomalies`, and the final commit. -/
def runSteps (cfg : Config) (db : DB) (d : Int) (now : Time) : List (Tx → Tx) :=
  [fun t => { t with pending := t.pending.filter (fun a => !inWindow d a.ts) },
   fun t => t, fun t => t, fun t => t, fun t => t,
   fun t => { t with pending :=
     t.pending ++ save_anomalies db now (generate_anomalies cfg db d now) },
   fun t => { committed := t.pending, pending := t.pending }]

/-- Position of the commit in `runSteps`. -/
def commitIndex : Nat := 6

/-- Run the session, optionally failing just before step `k` completes:
the steps before `k` execute, then the handler rolls back (pending state
discarded) and the run reports failure. -/
def run_tx (cfg : Config) (db : DB) (d : Int) (now : Time)
    (failAt : Option Nat) : Tx × Bool :=
  let start : Tx := { committed := db.anomalies, pending := db.anomalies }
  match failAt with
  | none => (((runSteps cfg db d now).foldl (fun t f => f t) start), true)
  | some k =>
      let t := ((runSteps cfg db d now).take k).foldl (fun t f => f t) start
      ({ committed := t.committed, pending := t.committed }, false)

/-- A successful session leaves exactly the committed state of the pure
run. -/
theorem run_tx_success (cfg : Config) (db : DB) (d : Int) (now : Time) :
    (run_tx cfg db d now none).1.committed =
      (run_reconciliation cfg db d now).anomalies := rfl

/-! ### Dictionary lemmas -/

theorem dictGet?_nil {β : Type} (k : String) :
    dictGet? ([] : List (String × β)) k = none := rfl

theorem dictGet?_cons {β : Type} (a : String) (b : β) (d : List (String × β))
    (k : String) :
    dictGet? ((a, b) :: d) k = if a = k then some b else dictGet? d k := by
  by_cases h : a = k
  · subst h; simp [dictGet?, List.find?_cons]
  · simp [dictGet?, List.find?_cons, h]

theorem dictGet?_eq_some_mem {β : Type} {d : List (String × β)} {k : String}
    {v : β} (h : dictGet? d k = some v) : (k, v) ∈ d := by
  induction d with
  | nil => simp [dictGet?] at h
  | cons p rest ih =>
      obtain ⟨a, b⟩ := p
      rw [dictGet?_cons] at h
      by_cases hak : a = k
      · rw [if_pos hak] at h
        subst hak
        cases h
        exact List.mem_cons_self _ _
      · rw [if_neg hak] at h
        exact List.mem_cons_of_mem _ (ih h)

theorem dictGet?_of_mem_nodup {β : Type} {d : List (String × β)} {k : String}
    {v : β} (hnd : (d.map Prod.fst).Nodup) (h : (k, v) ∈ d) :
    dictGet? d k = some v := by
  induction d with
  | nil => simp at h
  | cons p rest ih =>
      obtain ⟨a, b⟩ := p
      simp only [List.map_cons, List.nodup_cons] at hnd
      rcases List.mem_cons.mp h with heq | hmem
      · cases heq
        rw [dictGet?_cons, if_pos rfl]
      · rw [dictGet?_cons]
        have hak : a ≠ k := by
          intro hak
          subst hak
          exact hnd.1 (List.mem_map.mpr ⟨(a, v), hmem, rfl⟩)
        rw [if_neg hak]
        exact ih hnd.2 hmem

theorem dictGet?_map_update_ne {β : Type} (d : List (String × β)) (k k' : String)
    (v : β) (hkk : k ≠ k') :
    dictGet? (d.map (fun p => if p.1 == k then (k, v) else p)) k' =
      dictGet? d k' := by
  induction d with
  | nil => rfl
  | cons p rest ih =>
      obtain ⟨a, b⟩ := p
      by_cases hak : a = k
      · subst hak
        simp only [List.map_cons, beq_self_eq_true, if_true]
        rw [dictGet?_cons, dictGet?_cons, if_neg hkk, if_neg hkk, ih]
      · have hbeq : (a == k) = false := by simp [hak]
        simp only [List.map_cons, hbeq, Bool.false_eq_true, if_false]
        rw [dictGet?_cons, dictGet?_cons, ih]

theorem dictGet?_map_update_self {β : Type} (d : List (String × β)) (k : String)
    (v : β) (hany : (d.any fun p => p.1 == k) = true) :
    dictGet? (d.map (fun p => if p.1 == k then (k, v) else p)) k = some v := by
  induction d with
  | nil => simp at hany
  | cons p rest ih =>
      obtain ⟨a, b⟩ := p
      by_cases hak : a = k
      · subst hak
        simp only [List.map_cons, beq_self_eq_true, if_true]
        rw [dictGet?_cons, if_pos rfl]
      · have hbeq : (a == k) = false := by simp [hak]
        simp only [List.map_cons, hbeq, Bool.false_eq_true, if_false]
        rw [dictGet?_cons, if_neg hak]
        apply ih
        simpa [hbeq] using hany

theorem dictGet?_dictInsert {β : Type} (d : List (String × β)) (k k' : String)
    (v : β) :
    dictGet? (dictInsert d k v) k' = if k = k' then some v else dictGet? d k' := by
  unfold dictInsert
  by_cases hany : (d.any fun p => p.1 == k) = true
  · simp only [hany, if_true]
    by_cases hkk : k = k'
    · subst hkk
      rw [if_pos rfl]
      exact dictGet?_map_update_self d k v hany
    · rw [if_neg hkk]
      exact dictGet?_map_update_ne d k k' v hkk
  · simp only [hany, Bool.false_eq_true, if_false]
    unfold dictGet?
    rw [List.find?_append]
    by_cases hkk : k = k'
    · subst hkk
      have h1 : d.find? (fun p => p.1 == k) = none := by
        rw [List.find?_eq_none]
        intro x hx
        rw [Bool.not_eq_true, List.any_eq_false] at hany
        exact hany x hx
      simp [h1, List.find?_cons]
    · have h2 : List.find? (fun p => p.1 == k') [(k, v)] = none := by
        simp [List.find?_cons, hkk]
      rw [h2, if_neg hkk]
      cases hfind : d.find? (fun p => p.1 == k') <;> simp [hfind]

theorem keys_dictInsert {β : Type} (d : List (String × β)) (k : String) (v : β) :
    (dictInsert d k v).map Prod.fst =
      if d.any (fun p => p.1 == k) then d.map Prod.fst
      else d.map Prod.fst ++ [k] := by
  unfold dictInsert
  by_cases hany : (d.any fun p => p.1 == k) = true
  · simp only [hany, if_true, List.map_map]
    apply List.map_congr_left
    intro p _
    by_cases h : (p.1 == k) = true
    · simp only [Function.comp_apply, h, if_true]
      exact (beq_iff_eq.mp h).symm
    · have hne : p.1 ≠ k := by simpa using h
      simp [Function.comp_apply, h, hne]
  · simp only [hany, Bool.false_eq_true, if_false, List.map_append]
    rfl

theorem nodup_keys_dictInsert {β : Type} {d : List (String × β)} (k : String)
    (v : β) (h : (d.map Prod.fst).Nodup) :
    ((dictInsert d k v).map Prod.fst).Nodup := by
  rw [keys_dictInsert]
  by_cases hany : (d.any fun p => p.1 == k) = true
  · simp only [hany, if_true]
    exact h
  · simp only [hany, Bool.false_eq_true, if_false]
    have hany' := hany
    rw [Bool.not_eq_true, List.any_eq_false] at hany'
    have hk : k ∉ d.map Prod.fst := by
      intro hmem
      rcases List.mem_map.mp hmem with ⟨p, hp, hpk⟩
      exact hany' p hp (by simp [hpk])
    exact List.Nodup.append h (List.nodup_singleton k)
      (fun a ha hb => hk (by rwa [List.mem_singleton.mp hb] at ha))

theorem get_latest_allocations_keys_nodup (db : DB) :
    ((get_latest_allocations db).map Prod.fst).Nodup := by
  unfold get_latest_allocations
  suffices h : ∀ (l : List Allocation) (acc : List (String × String)),
      (acc.map Prod.fst).Nodup →
      ((l.foldl (fun acc a => dictInsert acc a.item_id a.bin_id) acc).map
        Prod.fst).Nodup by
    exact h db.allocations [] (by simp)
  intro l
  induction l with
  | nil => intro acc hacc; simpa using hacc
  | cons a rest ih =>
      intro acc hacc
      exact ih _ (nodup_keys_dictInsert _ _ hacc)

theorem dictGet?_foldl_insert (items : List String) (b : String)
    (acc : List (String × String)) (k : String) :
    dictGet? (items.foldl (fun a i => dictInsert a i b) acc) k =
      if k ∈ items then some b else dictGet? acc k := by
  induction items generalizing acc with
  | nil => simp
  | cons i rest ih =>
      simp only [List.foldl_cons]
      rw [ih]
      by_cases hk : k ∈ rest
      · simp [hk]
      · rw [if_neg hk, dictGet?_dictInsert]
        by_cases hik : i = k
        · simp [hik]
        · have hki : ¬k = i := fun hh => hik hh.symm
          simp [hik, hki, hk, List.mem_cons]

/-! ### Example states used by concrete evaluations -/

/-- Settings with no staging bins and the default 12h threshold. -/
def cfg0 : Config := { staging_bins := [], staging_threshold_hours := 12 }

/-- One item, allocated to bin A1 but last seen in bin B1: every run over
this state generates exactly one `misplaced` anomaly, independent of the
clock. -/
def dbMisplaced : DB :=
  { orders := [], allocations := [{ item_id := "I1", bin_id := "A1" }],
    snapshots := [{ id := 1, ts := 1, bin_id := some "B1",
                    item_ids := some ["I1"] }],
    items := [{ item_id := "I1", sku := "SKU1" }], anomalies := [] }

/-- A state whose anomaly table holds one high- and one med-severity row,
both inside date 0's window and with equal timestamps. -/
def dbTwoSeverities : DB :=
  { orders := [], allocations := [], snapshots := [], items := [],
    anomalies :=
      [{ id := 1, ts := 1, type := "x", bin_id := none, item_id := some "P1",
         order_id := none, severity := "high", detail := "", status := "open" },
       { id := 2, ts := 1, type := "x", bin_id := none, item_id := some "P2",
         order_id := none, severity := "med", detail := "", status := "open" }] }

/-- An order carrying an explicit but empty item list, over a state with
one item matching its SKU. -/
def orderEmptyList : Order :=
  { order_id := "O1", ship_date := 0, sku := "S", qty := 2,
    item_ids := some [], status := "shipped" }

/-- State for the item-resolution examples: one item of SKU "S". -/
def dbOneSku : DB :=
  { orders := [orderEmptyList], allocations := [], snapshots := [],
    items := [{ item_id := "A1", sku := "S" }], anomalies := [] }

/-! ### C1 — replacement of a prior run's anomalies -/

/-- C1 (code bug at this input): a first run for date 0 executed at hour 30
(outside date 0's window) stamps its `misplaced` anomaly with `ts = 30`,
because `_save_anomalies` ignores its `target_date` argument and the `ts`
column defaults to the insertion time.  A re-run for date 0 deletes only
`[0, 24)`, so the earlier run's row survives and the anomaly is now
duplicated: the final table holds one row stamped 30 and two `misplaced`
rows for item I1. -/
theorem rerun_leaves_stale_rows :
    ((run_reconciliation cfg0 (run_reconciliation cfg0 dbMisplaced 0 30) 0 31).anomalies.countP
        (fun a => decide (a.ts = 30))) = 1 ∧
    ((run_reconciliation cfg0 (run_reconciliation cfg0 dbMisplaced 0 30) 0 31).anomalies.countP
        (fun a => a.type == "misplaced" && a.item_id == some "I1")) = 2 := by
  decide

/-! ### C6 — order item resolution -/

/-- C6 (counterexample): this order carries an explicit item list (the
empty one), yet resolution ignores it and fetches by SKU — Python's
`order.item_ids or ...` treats an empty list as absent. -/
theorem resolve_ignores_explicit_empty_list :
    orderEmptyList.item_ids = some [] ∧
    resolve_order_items dbOneSku orderEmptyList = ["A1"] := by
  constructor
  · rfl
  · decide

/-- C6 (amended): resolution uses the order's explicit item list whenever
that list is present and non-empty; when it is absent or empty it fetches
up to `qty` item ids matching the order's SKU, returning
`min qty (number of matching items)` of them — fewer than `qty` when fewer
match, without error. -/
theorem resolve_order_items_amended (db : DB) (o : Order) :
    (∀ l, o.item_ids = some l → l ≠ [] → resolve_order_items db o = l) ∧
    ((o.item_ids = none ∨ o.item_ids = some ([] : List String)) →
      resolve_order_items db o = get_items_by_sku db o.sku o.qty) ∧
    (get_items_by_sku db o.sku o.qty).length =
      min o.qty (db.items.countP (fun i => i.sku == o.sku)) := by
  refine ⟨?_, ?_, ?_⟩
  · intro l hl hne
    unfold resolve_order_items
    rw [hl]
    cases l with
    | nil => exact absurd rfl hne
    | cons x xs => rfl
  · rintro (h | h) <;> rw [resolve_order_items, h]
    rfl
  · unfold get_items_by_sku
    rw [List.length_map, List.length_take, List.countP_eq_length_filter]

/-- C6 (witness for the amended theorem): the concrete order with the
empty explicit list resolves through the SKU query. -/
theorem resolve_order_items_amended_witness :
    resolve_order_items dbOneSku orderEmptyList =
      get_items_by_sku dbOneSku orderEmptyList.sku orderEmptyList.qty :=
  (resolve_order_items_amended dbOneSku orderEmptyList).2.1 (Or.inr rfl)

/-! ### C8 — retrieval ordering -/

theorem charsLt_trichotomy :
    ∀ x y : List Char, charsLt x y = true ∨ charsLt y x = true ∨ x = y := by
  intro x
  induction x with
  | nil =>
      intro y
      cases y with
      | nil => exact Or.inr (Or.inr rfl)
      | cons b bs => exact Or.inl rfl
  | cons a as ih =>
      intro y
      cases y with
      | nil => exact Or.inr (Or.inl rfl)
      | cons b bs =>
          rcases lt_trichotomy a b with h | h | h
          · left; simp [charsLt, h]
          · subst h
            rcases ih bs with h2 | h2 | h2
            · left; simp [charsLt, h2]
            · right; left; simp [charsLt, h2]
            · right; right; rw [h2]
          · right; left; simp [charsLt, h]

theorem charsLt_trans :
    ∀ x y z : List Char, charsLt x y = true → charsLt y z = true →
      charsLt x z = true := by
  intro x
  induction x with
  | nil =>
      intro y z hxy hyz
      cases y with
      | nil => simp [charsLt] at hxy
      | cons b bs =>
          cases z with
          | nil => simp [charsLt] at hyz
          | cons c cs => rfl
  | cons a as ih =>
      intro y z hxy hyz
      cases y with
      | nil => simp [charsLt] at hxy
      | cons b bs =>
          cases z with
          | nil => simp [charsLt] at hyz
          | cons c cs =>
              simp only [charsLt, Bool.or_eq_true, decide_eq_true_eq,
                Bool.and_eq_true, beq_iff_eq] at hxy hyz ⊢
              rcases hxy with h1 | ⟨h1, h1'⟩
              · rcases hyz with h2 | ⟨h2, _⟩
                · exact Or.inl (h1.trans h2)
                · exact Or.inl (h2 ▸ h1)
              · rcases hyz with h2 | ⟨h2, h2'⟩
                · exact Or.inl (h1 ▸ h2)
                · exact Or.inr ⟨h1.trans h2, ih bs cs h1' h2'⟩

theorem strLt_string_eq {a b : String}
    (h : a.toList = b.toList) : a = b := by
  cases a
  cases b
  simp only [String.toList] at h
  exact congrArg String.mk h

instance : IsTotal Anomaly anomOrder where
  total a b := by
    unfold anomOrder strLt
    rcases charsLt_trichotomy b.severity.toList a.severity.toList with h | h | h
    · exact Or.inl (Or.inl h)
    · exact Or.inr (Or.inl h)
    · have hsev : b.severity = a.severity := strLt_string_eq h
      rcases le_total b.ts a.ts with ht | ht
      · exact Or.inl (Or.inr ⟨hsev.symm, ht⟩)
      · exact Or.inr (Or.inr ⟨hsev, ht⟩)

instance : IsTrans Anomaly anomOrder where
  trans a b c hab hbc := by
    unfold anomOrder strLt at hab hbc ⊢
    rcases hab with h1 | ⟨h1, t1⟩
    · rcases hbc with h2 | ⟨h2, _⟩
      · exact Or.inl (charsLt_trans _ _ _ h2 h1)
      · exact Or.inl (h2 ▸ h1)
    · rcases hbc with h2 | ⟨h2, t2⟩
      · exact Or.inl (by rw [h1]; exact h2)
      · exact Or.inr ⟨h1.trans h2, t2.trans t1⟩

/-- C8 (counterexample): over `dbTwoSeverities`, listing date 0 returns the
`med` row before the `high` row — `ORDER BY severity DESC` on the severity
*string* puts "med" above "high" alphabetically, contradicting
"high before med". -/
theorem list_for_date_order_counterexample :
    (get_anomalies_for_date dbTwoSeverities 0).map (fun a => a.severity) =
      ["med", "high"] := by
  decide

/-- C8 (amended): listing the anomalies stored for a date returns exactly
the rows of that date's window, sorted by the severity string in reverse
lexicographic order — which puts "med" before "low" before "high" — and,
within equal severity strings, by timestamp descending. -/
theorem list_for_date_sorted (db : DB) (d : Int) :
    List.Sorted anomOrder (get_anomalies_for_date db d) ∧
    (get_anomalies_for_date db d).Perm
      (db.anomalies.filter (fun a => inWindow d a.ts)) :=
  ⟨List.sorted_insertionSort anomOrder _, List.perm_insertionSort anomOrder _⟩

/-! ### C9 — all-or-nothing failure handling -/

/-- C9: a failure at any session step before the final commit (the window
delete, the reads, the detectors, or the inserts) rolls the whole run
back: the committed anomaly table — and the session view after the
rollback — are exactly what they were before the run, so no partial
anomaly set is ever visible. -/
theorem run_tx_failure_rolls_back (cfg : Config) (db : DB) (d : Int)
    (now : Time) (k : Nat) (hk : k ≤ commitIndex) :
    (run_tx cfg db d now (some k)).2 = false ∧
    (run_tx cfg db d now (some k)).1.committed = db.anomalies ∧
    (run_tx cfg db d now (some k)).1.pending = db.anomalies := by
  have hk6 : k ≤ 6 := hk
  interval_cases k <;> exact ⟨rfl, rfl, rfl⟩

/-- C9 (witness): a failure right after the detectors, over a state whose
anomaly table is non-empty, leaves that table untouched. -/
theorem run_tx_failure_rolls_back_witness :
    (run_tx cfg0 dbTwoSeverities 0 1 (some 5)).2 = false ∧
    (run_tx cfg0 dbTwoSeverities 0 1 (some 5)).1.committed =
      dbTwoSeverities.anomalies ∧
    (run_tx cfg0 dbTwoSeverities 0 1 (some 5)).1.pending =
      dbTwoSeverities.anomalies :=
  run_tx_failure_rolls_back cfg0 dbTwoSeverities 0 1 5 (by decide)

/-! ### C10 — frame: rows outside the window survive -/

/-- C10: a run for date `d` preserves — in order, with multiplicity, and
unmodified — every anomaly row whose timestamp lies outside
`[d, d+1 day)`: the rows it deletes are exactly rows of that window, and
its inserts only append. -/
theorem run_preserves_out_of_window_rows (cfg : Config) (db : DB) (d : Int)
    (now : Time) :
    (db.anomalies.filter (fun a => !inWindow d a.ts)).Sublist
      (run_reconciliation cfg db d now).anomalies :=
  List.sublist_append_left _ _

/-! ### C2 — idempotence of a re-run -/

/-- The fields the idempotence property compares: type, referenced
bin/item/order ids and severity (row id and timestamp are storage
artefacts). -/
def anomalyContent (a : Anomaly) :
    String × Option String × Option String × Option String × String :=
  (a.type, a.bin_id, a.item_id, a.order_id, a.severity)

/-- Same projection for a not-yet-persisted candidate. -/
def dataContent (a : AnomalyData) :
    String × Option String × Option String × Option String × String :=
  (a.type, a.bin_id, a.item_id, a.order_id, a.severity)

theorem save_anomalies_map_content (db : DB) (now : Time)
    (datas : List AnomalyData) :
    (save_anomalies db now datas).map anomalyContent =
      datas.map dataContent := by
  unfold save_anomalies
  rw [List.map_map]
  have h : (anomalyContent ∘ fun p : Nat × AnomalyData =>
      mkAnomalyRow now (nextAnomalyId db.anomalies + p.1) p.2) =
      (dataContent ∘ Prod.snd) := rfl
  rw [h, ← List.map_map, List.enum_map_snd]

/-- Candidate generation never reads the anomaly table, so a run leaves
it unchanged as an input. -/
theorem generate_anomalies_after_run (cfg cfg2 : Config) (db : DB)
    (d d2 : Int) (now now2 : Time) :
    generate_anomalies cfg (run_reconciliation cfg2 db d2 now2) d now =
      generate_anomalies cfg db d now := rfl

theorem save_anomalies_ts (db : DB) (now : Time) (datas : List AnomalyData)
    (a : Anomaly) (h : a ∈ save_anomalies db now datas) : a.ts = now := by
  unfold save_anomalies at h
  rcases List.mem_map.mp h with ⟨p, _, hp⟩
  rw [← hp]
  rfl

/-- When the run's clock lies inside the target window, the rows of the
window after the run are exactly the rows the run inserted. -/
theorem run_window_filter (cfg : Config) (db : DB) (d : Int) (now : Time)
    (h : inWindow d now = true) :
    (run_reconciliation cfg db d now).anomalies.filter
        (fun a => inWindow d a.ts) =
      save_anomalies db now (generate_anomalies cfg db d now) := by
  unfold run_reconciliation
  rw [List.filter_append]
  have h1 : (db.anomalies.filter (fun a => !inWindow d a.ts)).filter
      (fun a => inWindow d a.ts) = [] := by
    rw [List.filter_filter, List.filter_eq_nil_iff]
    intro a _
    simp [Bool.and_comm]
  have h2 : (save_anomalies db now
        (generate_anomalies cfg db d now)).filter
      (fun a => inWindow d a.ts) =
      save_anomalies db now (generate_anomalies cfg db d now) := by
    rw [List.filter_eq_self]
    intro a ha
    rw [save_anomalies_ts db now _ a ha]
    exact h
  rw [h1, h2, List.nil_append]

/-- C2 (amended): re-running reconciliation for date `D` with the stored
orders, allocations, snapshots and item records unchanged yields the same
anomaly set (same types, same referenced ids, same per-type counts),
provided the two runs execute at the same instant and that instant lies
inside `[D, D+1 day)` — the detectors also consume the wall clock
(staleness and scan-recency), and rows are stamped with the clock, so
without these conditions the sets can differ. -/
theorem rerun_same_anomaly_content (cfg : Config) (db : DB) (d : Int)
    (now : Time) (h : inWindow d now = true) :
    ((get_anomalies_for_date
        (run_reconciliation cfg (run_reconciliation cfg db d now) d now)
        d).map anomalyContent).Perm
      ((get_anomalies_for_date (run_reconciliation cfg db d now) d).map
        anomalyContent) := by
  have p2 : ((get_anomalies_for_date
      (run_reconciliation cfg (run_reconciliation cfg db d now) d now)
      d).map anomalyContent).Perm
      (((run_reconciliation cfg (run_reconciliation cfg db d now) d
          now).anomalies.filter (fun a => inWindow d a.ts)).map
        anomalyContent) :=
    (List.perm_insertionSort anomOrder _).map anomalyContent
  have p1 : ((get_anomalies_for_date (run_reconciliation cfg db d now)
      d).map anomalyContent).Perm
      (((run_reconciliation cfg db d now).anomalies.filter
          (fun a => inWindow d a.ts)).map anomalyContent) :=
    (List.perm_insertionSort anomOrder _).map anomalyContent
  have e2 : (((run_reconciliation cfg (run_reconciliation cfg db d now) d
      now).anomalies.filter (fun a => inWindow d a.ts)).map anomalyContent)
      = (generate_anomalies cfg db d now).map dataContent := by
    rw [run_window_filter cfg _ d now h, save_anomalies_map_content,
      generate_anomalies_after_run]
  have e1 : (((run_reconciliation cfg db d now).anomalies.filter
      (fun a => inWindow d a.ts)).map anomalyContent)
      = (generate_anomalies cfg db d now).map dataContent := by
    rw [run_window_filter cfg db d now h, save_anomalies_map_content]
  exact p2.trans (by rw [e2, ← e1]; exact p1.symm)

/-- C2 (witness for the amended theorem): a same-instant in-window
re-run over the misplaced-item state returns the same listed content. -/
theorem rerun_same_anomaly_content_witness :
    ((get_anomalies_for_date
        (run_reconciliation cfg0 (run_reconciliation cfg0 dbMisplaced 0 1)
          0 1) 0).map anomalyContent).Perm
      ((get_anomalies_for_date (run_reconciliation cfg0 dbMisplaced 0 1)
        0).map anomalyContent) :=
  rerun_same_anomaly_content cfg0 dbMisplaced 0 1 (by decide)

/-- One item allocated to bin A1, never seen there; bin A1's only
snapshot (holding a different, known item) is dated 10 hours before
date 0 begins.  Whether the missing-item detector fires depends on the
wall clock, because the 24-hour proof-of-scan window is anchored at
`now`. -/
def dbMissing : DB :=
  { orders := [], allocations := [{ item_id := "X1", bin_id := "A1" }],
    snapshots := [{ id := 1, ts := -10, bin_id := some "A1",
                    item_ids := some ["X2"] }],
    items := [{ item_id := "X1", sku := "S" }, { item_id := "X2", sku := "S" }],
    anomalies := [] }

/-- C2 (counterexample): two failures of idempotence as stated, with the
stored orders, allocations, snapshots and items unchanged between runs.
First, runs at different in-window instants: at hour 10 bin A1's snapshot
is within the 24-hour look-back, so the run for date 0 stores one
`missing` anomaly; re-running at hour 20 finds the snapshot too old and
stores none.  Second, runs at the same instant lying outside date 0's
window: each run's rows are stamped `ts = 30`, outside the deletion
window, so a re-run deletes nothing and the store grows from one row to
two. -/
theorem rerun_different_anomaly_sets :
    ((get_anomalies_for_date (run_reconciliation cfg0 dbMissing 0 10)
        0).length = 1 ∧
      (get_anomalies_for_date
        (run_reconciliation cfg0 (run_reconciliation cfg0 dbMissing 0 10)
          0 20) 0).length = 0) ∧
    ((run_reconciliation cfg0 dbMisplaced 0 30).anomalies.length = 1 ∧
      (run_reconciliation cfg0 (run_reconciliation cfg0 dbMisplaced 0 30)
        0 30).anomalies.length = 2) := by
  constructor
  · constructor
    · norm_num [get_anomalies_for_date, run_reconciliation,
        generate_anomalies, get_orders_for_date, get_latest_allocations,
        get_last_snapshots_before, index_seen_items, index_bin_items,
        check_unshipped_orders, check_misplaced_items, check_orphan_items,
        check_staging_issues, check_missing_items, was_bin_scanned,
        save_anomalies, mkAnomalyRow, nextAnomalyId, inWindow, dayStart,
        dictInsert, dictGet?, dictExtend, truthyStr, truthyList, itemsOf,
        dbMissing, cfg0, List.insertionSort]
    · norm_num [get_anomalies_for_date, run_reconciliation,
        generate_anomalies, get_orders_for_date, get_latest_allocations,
        get_last_snapshots_before, index_seen_items, index_bin_items,
        check_unshipped_orders, check_misplaced_items, check_orphan_items,
        check_staging_issues, check_missing_items, was_bin_scanned,
        save_anomalies, mkAnomalyRow, nextAnomalyId, inWindow, dayStart,
        dictInsert, dictGet?, dictExtend, truthyStr, truthyList, itemsOf,
        dbMissing, cfg0, List.insertionSort]
  · exact ⟨by decide, by decide⟩

/-! ### C3 — misplaced detector -/

theorem countP_check_misplaced_not_mem (allocs seen : List (String × String))
    (item : String) (h : item ∉ allocs.map Prod.fst) :
    (check_misplaced_items allocs seen).countP
      (fun a => a.item_id == some item) = 0 := by
  induction allocs with
  | nil => rfl
  | cons p rest ih =>
      obtain ⟨k, v⟩ := p
      simp only [List.map_cons, List.mem_cons, not_or] at h
      unfold check_misplaced_items
      rw [List.flatMap_cons, List.countP_append]
      have h2 : (check_misplaced_items rest seen).countP
          (fun a => a.item_id == some item) = 0 := ih h.2
      unfold check_misplaced_items at h2
      rw [h2]
      cases hd : dictGet? seen k with
      | none => rfl
      | some actual =>
          by_cases hv : actual = v
          · simp [hv]
          · have hnev : (actual != v) = true := by simp [hv]
            have hki : ¬k = item := fun hh => h.1 hh.symm
            simp [hnev, hki]

theorem countP_check_misplaced (allocs seen : List (String × String))
    (item X : String) (hnd : (allocs.map Prod.fst).Nodup)
    (hget : dictGet? allocs item = some X) :
    (check_misplaced_items allocs seen).countP
        (fun a => a.item_id == some item) =
      match dictGet? seen item with
      | some Y => if Y = X then 0 else 1
      | none => 0 := by
  induction allocs with
  | nil => simp [dictGet?] at hget
  | cons p rest ih =>
      obtain ⟨k, v⟩ := p
      simp only [List.map_cons, List.nodup_cons] at hnd
      rw [dictGet?_cons] at hget
      unfold check_misplaced_items
      rw [List.flatMap_cons, List.countP_append]
      by_cases hk : k = item
      · rw [if_pos hk] at hget
        cases hget
        subst hk
        have hrest : (check_misplaced_items rest seen).countP
            (fun a => a.item_id == some k) = 0 :=
          countP_check_misplaced_not_mem rest seen k hnd.1
        unfold check_misplaced_items at hrest
        rw [hrest]
        cases hd : dictGet? seen k with
        | none => rfl
        | some actual =>
            by_cases hv : actual = X
            · simp [hv]
            · have hne : (actual != X) = true := by simp [hv]
              simp [hne, hv]
      · rw [if_neg hk] at hget
        have := ih hnd.2 hget
        unfold check_misplaced_items at this
        rw [this]
        cases hd : dictGet? seen k with
        | none => simp
        | some actual =>
            by_cases hv : actual = v
            · simp [hv]
            · have hne : (actual != v) = true := by simp [hv]
              have hki : (some k == some item) = false := by simp [hk]
              simp [hne, hki]

theorem mem_check_misplaced {allocs seen : List (String × String)}
    {a : AnomalyData} (h : a ∈ check_misplaced_items allocs seen) :
    ∃ k v actual, (k, v) ∈ allocs ∧ dictGet? seen k = some actual ∧
      actual ≠ v ∧ a.type = "misplaced" ∧ a.item_id = some k ∧
      a.bin_id = some actual ∧ a.severity = "med" := by
  unfold check_misplaced_items at h
  rcases List.mem_flatMap.mp h with ⟨p, hp, hmem⟩
  obtain ⟨k, v⟩ := p
  cases hd : dictGet? seen k with
  | none => rw [hd] at hmem; simp at hmem
  | some actual =>
      rw [hd] at hmem
      dsimp only at hmem
      by_cases hv : actual = v
      · have hne : (actual != v) = false := by simp [hv]
        rw [hne] at hmem
        simp at hmem
      · have hne : (actual != v) = true := by simp [hv]
        rw [hne] at hmem
        simp only [if_true, List.mem_singleton] at hmem
        subst hmem
        exact ⟨k, v, actual, hp, hd, hv, rfl, rfl, rfl, rfl⟩

/-- C3: over the allocation map, an item expected in bin `X` and last
seen in bin `Y ≠ X` yields exactly one `misplaced` anomaly referencing
it, carrying `bin_id = Y` and severity "med"; an item seen where
expected, or not seen at all, yields none. -/
theorem misplaced_detector_correct (db : DB)
    (seen : List (String × String)) (item X : String)
    (hX : dictGet? (get_latest_allocations db) item = some X) :
    (∀ Y, dictGet? seen item = some Y → Y ≠ X →
      ((check_misplaced_items (get_latest_allocations db) seen).countP
          (fun a => a.item_id == some item) = 1 ∧
        ∀ a ∈ check_misplaced_items (get_latest_allocations db) seen,
          a.item_id = some item →
            a.type = "misplaced" ∧ a.bin_id = some Y ∧
              a.severity = "med")) ∧
    (dictGet? seen item = some X →
      (check_misplaced_items (get_latest_allocations db) seen).countP
        (fun a => a.item_id == some item) = 0) ∧
    (dictGet? seen item = none →
      (check_misplaced_items (get_latest_allocations db) seen).countP
        (fun a => a.item_id == some item) = 0) := by
  have hnd := get_latest_allocations_keys_nodup db
  refine ⟨?_, ?_, ?_⟩
  · intro Y hY hYX
    constructor
    · rw [countP_check_misplaced _ seen item X hnd hX, hY]
      simp [hYX]
    · intro a ha hitem
      rcases mem_check_misplaced ha with
        ⟨k, v, actual, hkv, hd, hne, ht, hi, hb, hs⟩
      rw [hi] at hitem
      cases hitem
      have hvX : v = X := by
        have := dictGet?_of_mem_nodup hnd hkv
        rw [hX] at this
        exact (Option.some_injective _ this).symm
      have hactY : actual = Y := by
        rw [hd] at hY
        exact Option.some_injective _ hY
      exact ⟨ht, hactY ▸ hb, hs⟩
  · intro hY
    rw [countP_check_misplaced _ seen item X hnd hX, hY]
    simp
  · intro hY
    rw [countP_check_misplaced _ seen item X hnd hX, hY]

/-- C3 (witness): item I1 expected in A1 and seen in B1 produces exactly
one matching anomaly. -/
theorem misplaced_detector_correct_witness :
    (check_misplaced_items (get_latest_allocations dbMisplaced)
        [("I1", "B1")]).countP (fun a => a.item_id == some "I1") = 1 :=
  ((misplaced_detector_correct dbMisplaced [("I1", "B1")] "I1" "A1"
      (by decide)).1 "B1" (by decide) (by decide)).1

/-! ### C5 — missing-item detector -/

theorem mem_check_missing {db : DB} {now : Time}
    {allocs seen : List (String × String)} {a : AnomalyData}
    (h : a ∈ check_missing_items db now allocs seen) :
    ∃ k v, (k, v) ∈ allocs ∧ dictGet? seen k = none ∧
      was_bin_scanned db now v = true ∧ a.type = "missing" ∧
      a.item_id = some k ∧ a.bin_id = some v ∧ a.severity = "med" := by
  unfold check_missing_items at h
  rcases List.mem_flatMap.mp h with ⟨p, hp, hmem⟩
  obtain ⟨k, v⟩ := p
  cases hd : dictGet? seen k with
  | some actual => rw [hd] at hmem; simp at hmem
  | none =>
      rw [hd] at hmem
      dsimp only at hmem
      by_cases hscan : was_bin_scanned db now v = true
      · rw [if_pos hscan] at hmem
        simp only [List.mem_singleton] at hmem
        subst hmem
        exact ⟨k, v, hp, hd, hscan, rfl, rfl, rfl, rfl⟩
      · rw [if_neg hscan] at hmem
        simp at hmem

/-- C5: an allocated item absent from `seenItemToBin` yields a `missing`
anomaly exactly when its expected bin has a snapshot inside the 24-hour
look-back window anchored at the clock; with no such snapshot, no anomaly
is emitted for the item. -/
theorem missing_detector_scan_gated (db : DB) (now : Time)
    (seen : List (String × String)) (item expBin : String)
    (hX : dictGet? (get_latest_allocations db) item = some expBin)
    (hns : dictGet? seen item = none) :
    (∃ a ∈ check_missing_items db now (get_latest_allocations db) seen,
        a.type = "missing" ∧ a.item_id = some item ∧
          a.bin_id = some expBin)
      ↔ was_bin_scanned db now expBin = true := by
  constructor
  · rintro ⟨a, ha, _, hitem, _⟩
    rcases mem_check_missing ha with ⟨k, v, hkv, _, hscan, _, hik, _, _⟩
    rw [hik] at hitem
    cases hitem
    have hv : v = expBin := by
      have hg := dictGet?_of_mem_nodup (get_latest_allocations_keys_nodup db) hkv
      rw [hX] at hg
      exact Option.some_injective _ hg.symm
    exact hv ▸ hscan
  · intro hscan
    have hmem : (item, expBin) ∈ get_latest_allocations db :=
      dictGet?_eq_some_mem hX
    refine ⟨⟨"missing", some expBin, some item, none, "med",
      "Item " ++ item ++ " allocated to " ++ expBin ++
        " but not seen in recent snapshots"⟩, ?_, rfl, rfl, rfl⟩
    unfold check_missing_items
    apply List.mem_flatMap.mpr
    refine ⟨(item, expBin), hmem, ?_⟩
    dsimp only
    rw [hns, if_pos hscan]
    exact List.mem_singleton.mpr rfl

/-- Item I9 allocated to bin A9; A9 has a snapshot (of another item) at
hour 0. -/
def dbScanned : DB :=
  { orders := [], allocations := [{ item_id := "I9", bin_id := "A9" }],
    snapshots := [{ id := 1, ts := 0, bin_id := some "A9",
                    item_ids := some ["Z"] }],
    items := [], anomalies := [] }

/-- C5 (witness): at hour 1 the snapshot is recent, so the absent item
I9 is flagged missing. -/
theorem missing_detector_scan_gated_witness :
    ∃ a ∈ check_missing_items dbScanned 1 (get_latest_allocations dbScanned)
        [], a.type = "missing" ∧ a.item_id = some "I9" ∧
          a.bin_id = some "A9" :=
  (missing_detector_scan_gated dbScanned 1 [] "I9" "A9" (by decide)
      (by decide)).mpr (by norm_num [was_bin_scanned, dbScanned])

/-! ### C4 — stale-staging detector -/

theorem mem_check_staging {cfg : Config} {db : DB} {now : Time}
    {bin_items : List (String × List String)} {a : AnomalyData}
    (h : a ∈ check_staging_issues cfg db now bin_items) :
    ∃ b l iid, b ∈ cfg.staging_bins ∧ dictGet? bin_items b = some l ∧
      iid ∈ l ∧
      (cfg.staging_threshold_hours : ℚ) < get_hours_in_bin db now iid b ∧
      a.type = "stale_staging" ∧ a.item_id = some iid ∧
      a.bin_id = some b ∧ a.severity = "high" := by
  unfold check_staging_issues at h
  rcases List.mem_flatMap.mp h with ⟨b, hb, hmem⟩
  cases hd : dictGet? bin_items b with
  | none => rw [hd] at hmem; simp at hmem
  | some l =>
      rw [hd] at hmem
      rcases List.mem_flatMap.mp hmem with ⟨iid, hiid, hmem2⟩
      by_cases hcond :
          (cfg.staging_threshold_hours : ℚ) < get_hours_in_bin db now iid b
      · rw [if_pos hcond] at hmem2
        simp only [List.mem_singleton] at hmem2
        subst hmem2
        exact ⟨b, l, iid, hb, hd, hiid, hcond, rfl, rfl, rfl, rfl⟩
      · rw [if_neg hcond] at hmem2
        simp at hmem2

/-- C4: an item listed under a configured staging bin in `seenBinToItems`
is flagged `stale_staging` exactly when `now − T` strictly exceeds the
configured threshold, `T` being the timestamp of the earliest snapshot
that placed the item in that bin; at exactly the threshold no anomaly is
emitted. -/
theorem stale_staging_boundary (cfg : Config) (db : DB) (now : Time)
    (bin_items : List (String × List String)) (bin item : String)
    (l : List String) (T : Time)
    (hbin : bin ∈ cfg.staging_bins)
    (hl : dictGet? bin_items bin = some l) (hitem : item ∈ l)
    (hT : first_ts? db item bin = some T) :
    (∃ a ∈ check_staging_issues cfg db now bin_items,
        a.type = "stale_staging" ∧ a.item_id = some item ∧
          a.bin_id = some bin)
      ↔ (cfg.staging_threshold_hours : ℚ) < now - T := by
  have hhours : get_hours_in_bin db now item bin = now - T := by
    unfold get_hours_in_bin
    rw [hT]
  constructor
  · rintro ⟨a, ha, _, hitem', hbin'⟩
    rcases mem_check_staging ha with
      ⟨b, l', iid, _, _, _, hcond, _, hik, hbk, _⟩
    rw [hik] at hitem'
    cases hitem'
    rw [hbk] at hbin'
    cases hbin'
    rwa [hhours] at hcond
  · intro hgt
    refine ⟨⟨"stale_staging", some bin, some item, none, "high",
        "Item " ++ item ++ " in staging " ++ bin ++ " beyond threshold"⟩,
      ?_, rfl, rfl, rfl⟩
    unfold check_staging_issues
    apply List.mem_flatMap.mpr
    refine ⟨bin, hbin, ?_⟩
    rw [hl]
    apply List.mem_flatMap.mpr
    refine ⟨item, hitem, ?_⟩
    rw [if_pos (by rwa [hhours])]
    exact List.mem_singleton.mpr rfl

/-- Settings with one staging bin S-01 and the default 12h threshold. -/
def cfgStaging : Config :=
  { staging_bins := ["S-01"], staging_threshold_hours := 12 }

/-- Item I1 first seen in staging bin S-01 at hour 0. -/
def dbStaging : DB :=
  { orders := [], allocations := [],
    snapshots := [{ id := 1, ts := 0, bin_id := some "S-01",
                    item_ids := some ["I1"] }],
    items := [{ item_id := "I1", sku := "S" }], anomalies := [] }

/-- C4 (witness): 13 hours after first being seen, with a 12-hour
threshold, the staged item is flagged. -/
theorem stale_staging_boundary_witness :
    ∃ a ∈ check_staging_issues cfgStaging dbStaging 13 [("S-01", ["I1"])],
      a.type = "stale_staging" ∧ a.item_id = some "I1" ∧
        a.bin_id = some "S-01" :=
  (stale_staging_boundary cfgStaging dbStaging 13 [("S-01", ["I1"])]
      "S-01" "I1" ["I1"] 0 (by decide) (by decide) (by decide)
      (by decide)).mpr (by norm_num [cfgStaging])

/-! ### C7 — snapshot index builder -/

/-- Spec-side characterization of a kept snapshot: a stored row with a
non-NULL bin, dated strictly before the cutoff, whose timestamp is
maximal among that bin's pre-cutoff rows. -/
def isLatestSnapshotBefore (db : DB) (cutoff : Time) (s : Snapshot) : Prop :=
  s ∈ db.snapshots ∧ ∃ b, s.bin_id = some b ∧ s.ts < cutoff ∧
    ∀ s2 ∈ db.snapshots, s2.bin_id = some b → s2.ts < cutoff → s2.ts ≤ s.ts

/-- Spec-side last-writer rule: the bin recorded for an item is the bin
of the last processed snapshot whose (truthy) item list contains it. -/
def last_seen_bin (snaps : List Snapshot) (item : String) : Option String :=
  ((snaps.filter (fun s =>
      truthyList s.item_ids && truthyStr s.bin_id &&
        (itemsOf s).contains item)).getLast?).bind (fun s => s.bin_id)

theorem index_seen_items_append (l : List Snapshot) (s : Snapshot) :
    index_seen_items (l ++ [s]) =
      if truthyList s.item_ids && truthyStr s.bin_id then
        (itemsOf s).foldl
          (fun acc iid => dictInsert acc iid (s.bin_id.getD ""))
          (index_seen_items l)
      else index_seen_items l := by
  unfold index_seen_items
  rw [List.foldl_append]
  rfl

theorem dictGet?_index_seen_items (snaps : List Snapshot) (item : String) :
    dictGet? (index_seen_items snaps) item = last_seen_bin snaps item := by
  induction snaps using List.reverseRecOn with
  | nil => rfl
  | append_singleton l s ih =>
      rw [index_seen_items_append]
      unfold last_seen_bin
      rw [List.filter_append]
      by_cases hP : (truthyList s.item_ids && truthyStr s.bin_id) = true
      · rw [if_pos hP, dictGet?_foldl_insert]
        by_cases hC : ((itemsOf s).contains item) = true
        · have hc' : item ∈ itemsOf s := List.mem_of_elem_eq_true hC
          rw [if_pos hc']
          have hps : (truthyList s.item_ids && truthyStr s.bin_id &&
              (itemsOf s).contains item) = true := by
            rw [hP, hC]
            rfl
          have hfs : List.filter (fun s' =>
              truthyList s'.item_ids && truthyStr s'.bin_id &&
                (itemsOf s').contains item) [s] = [s] := by
            simp only [List.filter_cons, hps, if_true, List.filter_nil]
          rw [hfs, List.getLast?_concat]
          rcases hb : s.bin_id with _ | v
          · rw [Bool.and_eq_true] at hP
            rw [hb] at hP
            simp [truthyStr] at hP
          · simp [hb]
        · have hc' : item ∉ itemsOf s :=
            fun hm => hC (List.elem_eq_true_of_mem hm)
          rw [if_neg hc']
          have hps : (truthyList s.item_ids && truthyStr s.bin_id &&
              (itemsOf s).contains item) = false := by
            rw [eq_false_of_ne_true hC, Bool.and_false]
          have hfs : List.filter (fun s' =>
              truthyList s'.item_ids && truthyStr s'.bin_id &&
                (itemsOf s').contains item) [s] = [] := by
            simp only [List.filter_cons, hps, Bool.false_eq_true, if_false,
              List.filter_nil]
          rw [hfs, List.append_nil]
          exact ih
      · rw [if_neg hP]
        have hps : (truthyList s.item_ids && truthyStr s.bin_id &&
            (itemsOf s).contains item) = false := by
          rw [eq_false_of_ne_true hP, Bool.false_and]
        have hfs : List.filter (fun s' =>
            truthyList s'.item_ids && truthyStr s'.bin_id &&
              (itemsOf s').contains item) [s] = [] := by
          simp only [List.filter_cons, hps, Bool.false_eq_true, if_false,
            List.filter_nil]
        rw [hfs, List.append_nil]
        exact ih

theorem mem_get_last_snapshots_before (db : DB) (cutoff : Time)
    (s : Snapshot) :
    s ∈ get_last_snapshots_before db cutoff ↔
      isLatestSnapshotBefore db cutoff s := by
  unfold get_last_snapshots_before isLatestSnapshotBefore
  rw [List.mem_filter]
  constructor
  · rintro ⟨hmem, hcond⟩
    refine ⟨hmem, ?_⟩
    rcases hb : s.bin_id with _ | b
    · rw [hb] at hcond
      simp at hcond
    · rw [hb] at hcond
      rw [Bool.and_eq_true, decide_eq_true_eq, List.all_eq_true] at hcond
      refine ⟨b, rfl, hcond.1, ?_⟩
      intro s2 hs2 hb2 hlt2
      have h2 := hcond.2 s2 hs2
      have hq : (s2.bin_id == some b && decide (s2.ts < cutoff)) = true := by
        simp [hb2, hlt2]
      rw [hq] at h2
      simpa using h2
  · rintro ⟨hmem, b, hbin, hlt, hmax⟩
    refine ⟨hmem, ?_⟩
    rw [hbin]
    rw [Bool.and_eq_true, decide_eq_true_eq, List.all_eq_true]
    refine ⟨hlt, ?_⟩
    intro s2 hs2
    by_cases hq : (s2.bin_id == some b && decide (s2.ts < cutoff)) = true
    · rw [Bool.and_eq_true, beq_iff_eq, decide_eq_true_eq] at hq
      have := hmax s2 hs2 hq.1 hq.2
      simp [this, hq.1, hq.2]
    · have hq' : (s2.bin_id == some b && decide (s2.ts < cutoff)) = false :=
        eq_false_of_ne_true hq
      simp [hq']

theorem count_kept_per_bin (db : DB) (cutoff : Time) (b : String)
    (hnd : ((db.snapshots.filter (fun s =>
        s.bin_id == some b && decide (s.ts < cutoff))).map
          (fun s => s.ts)).Nodup) :
    (get_last_snapshots_before db cutoff).countP
        (fun s => s.bin_id == some b) =
      if db.snapshots.any (fun s =>
          s.bin_id == some b && decide (s.ts < cutoff)) then 1 else 0 := by
  classical
  set qpred : Snapshot → Bool :=
    fun s => s.bin_id == some b && decide (s.ts < cutoff) with hqpred
  set maxpred : Snapshot → Bool := fun s =>
    db.snapshots.all (fun s2 => !(qpred s2) || decide (s2.ts ≤ s.ts))
    with hmaxpred
  have bool_of_iff : ∀ x y : Bool, (x = true ↔ y = true) → x = y := by
    intro x y h
    cases x <;> cases y <;> simp_all
  have hAB : (get_last_snapshots_before db cutoff).filter
      (fun s => s.bin_id == some b) =
      (db.snapshots.filter qpred).filter maxpred := by
    unfold get_last_snapshots_before
    rw [List.filter_filter, List.filter_filter]
    apply List.filter_congr
    intro s _
    apply bool_of_iff
    rcases hb2 : s.bin_id with _ | b'
    · simp [hqpred, hb2]
    · by_cases hbb : b' = b
      · subst hbb
        simp only [hqpred, hmaxpred, hb2, beq_self_eq_true, Bool.true_and,
          Bool.and_eq_true, decide_eq_true_eq, List.all_eq_true,
          Bool.or_eq_true, Bool.not_eq_true', Bool.and_eq_false_iff,
          beq_eq_false_iff_ne, ne_eq, decide_eq_false_iff_not]
        tauto
      · simp [hqpred, hb2, hbb]
  have hsame : ∀ s1 ∈ (db.snapshots.filter qpred).filter maxpred,
      ∀ s2 ∈ (db.snapshots.filter qpred).filter maxpred, s1.ts = s2.ts := by
    intro s1 h1 s2 h2
    rcases List.mem_filter.mp h1 with ⟨h1q, h1m⟩
    rcases List.mem_filter.mp h2 with ⟨h2q, h2m⟩
    rcases List.mem_filter.mp h1q with ⟨h1mem, h1p⟩
    rcases List.mem_filter.mp h2q with ⟨h2mem, h2p⟩
    rw [hmaxpred, List.all_eq_true] at h1m h2m
    have hle1 := h2m s1 h1mem
    have hle2 := h1m s2 h2mem
    rw [h1p] at hle1
    rw [h2p] at hle2
    simp only [Bool.not_true, Bool.false_or, decide_eq_true_eq] at hle1 hle2
    exact le_antisymm hle1 hle2
  have hlen : ((db.snapshots.filter qpred).filter maxpred).length ≤ 1 := by
    have hsub0 : ((db.snapshots.filter qpred).filter maxpred).Sublist
        (db.snapshots.filter qpred) := List.filter_sublist _
    have hsub : (((db.snapshots.filter qpred).filter maxpred).map
        (fun s : Snapshot => s.ts)).Nodup :=
      List.Nodup.sublist (List.Sublist.map (fun s : Snapshot => s.ts) hsub0)
        hnd
    rcases hr : (db.snapshots.filter qpred).filter maxpred with _ | ⟨s1, tl⟩
    · simp
    · rcases tl with _ | ⟨s2, tl2⟩
      · simp
      · exfalso
        have h1 : s1 ∈ (db.snapshots.filter qpred).filter maxpred := by
          rw [hr]; exact List.mem_cons_self _ _
        have h2 : s2 ∈ (db.snapshots.filter qpred).filter maxpred := by
          rw [hr]; exact List.mem_cons_of_mem _ (List.mem_cons_self _ _)
        have heq := hsame s1 h1 s2 h2
        rw [hr] at hsub
        simp only [List.map_cons, List.nodup_cons, List.mem_cons] at hsub
        exact hsub.1 (Or.inl heq)
  rw [List.countP_eq_length_filter, hAB]
  by_cases hany : db.snapshots.any qpred = true
  · rw [hqpred] at hany
    rw [if_pos hany]
    rcases List.any_eq_true.mp hany with ⟨x, hxmem, hxp⟩
    have hq_ne : db.snapshots.filter qpred ≠ [] := by
      intro hnil
      have : x ∈ db.snapshots.filter qpred :=
        List.mem_filter.mpr ⟨hxmem, by rw [hqpred]; exact hxp⟩
      rw [hnil] at this
      exact absurd this (List.not_mem_nil x)
    rcases hm : (db.snapshots.filter qpred).argmax (fun s => s.ts) with _ | m
    · exact absurd (List.argmax_eq_none.mp hm) hq_ne
    · have hmmem : m ∈ db.snapshots.filter qpred := List.argmax_mem hm
      have hmmax : ∀ a ∈ db.snapshots.filter qpred, a.ts ≤ m.ts :=
        fun a ha => List.le_of_mem_argmax ha hm
      have hmker : m ∈ (db.snapshots.filter qpred).filter maxpred := by
        refine List.mem_filter.mpr ⟨hmmem, ?_⟩
        rw [hmaxpred, List.all_eq_true]
        intro s2 hs2
        by_cases hs2q : qpred s2 = true
        · have : s2 ∈ db.snapshots.filter qpred :=
            List.mem_filter.mpr ⟨hs2, hs2q⟩
          simp [hs2q, hmmax s2 this]
        · simp [eq_false_of_ne_true hs2q]
      have hpos : 0 < ((db.snapshots.filter qpred).filter maxpred).length :=
        List.length_pos.mpr (fun hnil => by
          rw [hnil] at hmker
          exact absurd hmker (List.not_mem_nil m))
      omega
  · rw [hqpred] at hany
    rw [if_neg hany]
    have hq_nil : db.snapshots.filter qpred = [] := by
      rw [List.filter_eq_nil_iff]
      intro a ha
      rw [Bool.not_eq_true, List.any_eq_false] at hany
      rw [hqpred]
      exact hany a ha
    rw [hq_nil]
    rfl

/-- C7 (amended): for a given cutoff the builder keeps exactly the
snapshots with a non-NULL bin whose timestamp is maximal, strictly before
the cutoff, among their bin's pre-cutoff snapshots — exactly one per
qualifying bin when that bin's pre-cutoff timestamps are distinct, but
every tied row when the maximum is attained more than once — discards
bins with no qualifying snapshot, and `seenItemToBin` maps an item to the
bin of the last kept snapshot listing it (last writer wins). -/
theorem snapshot_index_builder_spec (db : DB) (cutoff : Time) :
    (∀ s, s ∈ get_last_snapshots_before db cutoff ↔
        isLatestSnapshotBefore db cutoff s) ∧
    (∀ b, ((db.snapshots.filter (fun s =>
          s.bin_id == some b && decide (s.ts < cutoff))).map
            (fun s => s.ts)).Nodup →
        (get_last_snapshots_before db cutoff).countP
            (fun s => s.bin_id == some b) =
          if db.snapshots.any (fun s =>
              s.bin_id == some b && decide (s.ts < cutoff)) then 1
          else 0) ∧
    (∀ item,
        dictGet? (index_seen_items (get_last_snapshots_before db cutoff))
            item =
          last_seen_bin (get_last_snapshots_before db cutoff) item) :=
  ⟨mem_get_last_snapshots_before db cutoff,
   count_kept_per_bin db cutoff,
   dictGet?_index_seen_items (get_last_snapshots_before db cutoff)⟩

/-- Two snapshots of the same bin with the same timestamp. -/
def dbTiedSnapshots : DB :=
  { orders := [], allocations := [],
    snapshots := [{ id := 1, ts := 5, bin_id := some "B",
                    item_ids := some ["a"] },
                  { id := 2, ts := 5, bin_id := some "B",
                    item_ids := some ["b"] }],
    items := [], anomalies := [] }

/-- C7 (counterexample): with two snapshots of bin B tied at the maximal
timestamp, the builder keeps both rows — not "exactly the snapshot with
the maximum timestamp". -/
theorem snapshot_tie_keeps_two :
    (get_last_snapshots_before dbTiedSnapshots 10).countP
      (fun s => s.bin_id == some "B") = 2 := by
  decide

/-- C7 (witness for the amended theorem): over the misplaced-item state,
bin B1 has distinct pre-cutoff timestamps and one qualifying snapshot, so
exactly one row is kept. -/
theorem snapshot_index_builder_spec_witness :
    (get_last_snapshots_before dbMisplaced 24).countP
        (fun s => s.bin_id == some "B1") =
      if dbMisplaced.snapshots.any (fun s =>
          s.bin_id == some "B1" && decide (s.ts < 24)) then 1 else 0 :=
  (snapshot_index_builder_spec dbMisplaced 24).2.1 "B1" (by decide)

end Recon
